import Mathlib

/-!
Verification development for the os-kit core: the group-record codec
(`_putgrent`), the error bridge (`getErrno`), and the account-record
access facade.  The repository ships the C interface declarations only
(`src/Sources/cos/include/cos_kit.h`); the behaviour of each operation is
therefore modelled from the specification and verified against the
properties the specification states.
-/

namespace OsKit

/-- Modelled from the spec: one entry of the group database (§3 GroupRecord).
Text fields are byte sequences, represented as lists of characters. -/
structure GroupRecord where
  name : List Char
  passwordPlaceholder : List Char
  gid : Nat
  members : List (List Char)
deriving DecidableEq, Repr

/-- Modelled from the spec: the error taxonomy of the codec (§7): a structural
validation failure, or a sink write failure wrapping the native failure code. -/
inductive EncodeError where
  | InvalidField : EncodeError
  | WriteFailed : Int → EncodeError
deriving DecidableEq, Repr

/-- Modelled from the spec: result of one `encode` invocation
(`Result<Unit, EncodeError>`, §4.2). -/
inductive EncodeResult where
  | success : EncodeResult
  | failure : EncodeError → EncodeResult
deriving DecidableEq, Repr

/-- Modelled from the spec: thread-local native state visible to this core —
the last-error value of the native last-error mechanism (§4.1, glossary). -/
structure NativeState where
  errno : Int
deriving DecidableEq, Repr

/-- Modelled from the spec: `getErrno` (the Error Bridge, `captureLastFailure`,
declared at cos_kit.h line 12-13).  Reads the thread-local last-error value and
returns it as a raw integer, together with the (unchanged) native state. -/
def getErrno (s : NativeState) : Int × NativeState :=
  (s.errno, s)

/-- Modelled from the spec: a platform call that signals failure through the
native last-error mechanism sets the thread-local value to its failure code
(§4.1, glossary "native last-error mechanism"). -/
def platformCallFail (code : Int) (_s : NativeState) : NativeState :=
  { errno := code }

/-- Modelled from the spec: an unrelated successful native call interposed on
the same thread may overwrite the thread-local last-error value (§4.1: any
interposed call invalidates the captured value). -/
def platformCallOk (newErrno : Int) (_s : NativeState) : NativeState :=
  { errno := newErrno }

/-- Modelled from the spec: the answer an output sink gives to one write
request — acceptance, or a write failure carrying the native failure code it
sets in the thread-local last-error state (§6 OutputSink). -/
inductive SinkOutcome where
  | ok : SinkOutcome
  | fail : Int → SinkOutcome
deriving DecidableEq, Repr

/-- Decimal digit character for `d % 10`. -/
def digitChar (d : Nat) : Char :=
  Char.ofNat (48 + d % 10)

/-- Fuel-indexed decimal rendering; the fuel bounds the recursion depth and is
always sufficient when at least `n + 1`. -/
def toDecimalAux : Nat → Nat → List Char
  | 0, _ => []
  | fuel + 1, n =>
    if n < 10 then [digitChar n]
    else toDecimalAux fuel (n / 10) ++ [digitChar (n % 10)]

/-- Modelled from the spec: canonical decimal rendering of the numeric group
id field (§4.2 serialization format). -/
def toDecimal (n : Nat) : List Char :=
  toDecimalAux (n + 1) n

/-- Join pieces with a separator character between consecutive pieces. -/
def intercalateChar (sep : Char) : List (List Char) → List Char
  | [] => []
  | [x] => x
  | x :: y :: xs => x ++ sep :: intercalateChar sep (y :: xs)

/-- Modelled from the spec: the canonical one-line-per-entry wire form
`name:passwordPlaceholder:gid:member1,...,memberN` followed by one newline
(§4.2 serialization format, §6 database text format). -/
def canonicalLine (r : GroupRecord) : List Char :=
  r.name ++ ':' :: r.passwordPlaceholder ++ ':' :: toDecimal r.gid ++
    ':' :: intercalateChar ',' r.members ++ ['\n']

/-- Modelled from the spec: a general text field (name, password placeholder)
must not contain the field delimiter or a newline (§3). -/
def okText (s : List Char) : Bool :=
  s.all fun c => c != ':' && c != '\n'

/-- Modelled from the spec: a member name must not contain the field
delimiter, the member separator, or a newline (§3). -/
def okMember (s : List Char) : Bool :=
  s.all fun c => c != ':' && c != ',' && c != '\n'

/-- Modelled from the spec: the structural field constraints `encode` checks
before emitting anything (§4.2 validation). -/
def validRecord (r : GroupRecord) : Bool :=
  okText r.name && okText r.passwordPlaceholder && r.members.all okMember

/-- Everything one invocation of `encode` produces or touches: its result, the
thread-local native state it leaves behind, the write requests handed to the
sink, and how many platform calls it issued. -/
structure EncodeOutcome where
  result : EncodeResult
  finalState : NativeState
  writes : List (List Char)
  nativeCalls : Nat
deriving DecidableEq, Repr

/-- Modelled from the spec: `_putgrent` (the group-record codec `encode`,
declared at cos_kit.h line 15).  Validates every field first; on violation
returns `InvalidField` with no platform call issued and nothing written.
Otherwise hands the full canonical line to the sink as one atomic write
request; if the sink reports failure it sets the native last-error value,
which `encode` captures through the Error Bridge at that exact point and
returns wrapped in `WriteFailed` (§4.2). -/
def encode (r : GroupRecord) (sink : List Char → SinkOutcome) (s : NativeState) :
    EncodeOutcome :=
  if validRecord r then
    match sink (canonicalLine r) with
    | SinkOutcome.ok =>
        { result := EncodeResult.success
          finalState := s
          writes := [canonicalLine r]
          nativeCalls := 1 }
    | SinkOutcome.fail c =>
        let sAfter := platformCallFail c s
        let captured := getErrno sAfter
        { result := EncodeResult.failure (EncodeError.WriteFailed captured.1)
          finalState := captured.2
          writes := [canonicalLine r]
          nativeCalls := 1 }
  else
    { result := EncodeResult.failure EncodeError.InvalidField
      finalState := s
      writes := []
      nativeCalls := 0 }

/-- A sink that accepts every write request. -/
def okSink : List Char → SinkOutcome := fun _ => SinkOutcome.ok

/-- Numeric value of a decimal digit character, if it is one. -/
def digitVal (c : Char) : Option Nat :=
  if 48 ≤ c.toNat ∧ c.toNat ≤ 57 then some (c.toNat - 48) else none

/-- Accumulating decimal parse of a character sequence. -/
def parseNatAux : List Char → Nat → Option Nat
  | [], acc => some acc
  | c :: cs, acc =>
    match digitVal c with
    | some d => parseNatAux cs (acc * 10 + d)
    | none => none

/-- Modelled from the spec: conformant parse of the decimal gid field
(§8 round-trip, same delimiter rules as the codec). -/
def parseNat (cs : List Char) : Option Nat :=
  if cs.isEmpty then none else parseNatAux cs 0

/-- Split a character sequence at every occurrence of the separator. -/
def splitOnChar (sep : Char) : List Char → List (List Char)
  | [] => [[]]
  | c :: cs =>
    if c = sep then [] :: splitOnChar sep cs
    else
      match splitOnChar sep cs with
      | [] => [[c]]
      | g :: gs => (c :: g) :: gs

/-- Modelled from the spec: conformant parse of the comma-separated member
field; an empty member field means zero members (§4.2: zero members yields an
empty member field). -/
def parseMembers (cs : List Char) : List (List Char) :=
  if cs.isEmpty then [] else splitOnChar ',' cs

/-- Modelled from the spec: a conformant parser for one canonical group line,
using the same delimiter rules as the codec (§8 round-trip): strip the single
newline terminator, split the body into exactly four colon-separated fields,
parse the gid as decimal, and split the member field on commas. -/
def parseGroupLine (cs : List Char) : Option GroupRecord :=
  if cs.getLast? = some '\n' then
    match splitOnChar ':' cs.dropLast with
    | [n, p, g, m] =>
      match parseNat g with
      | some gid => some ⟨n, p, gid, parseMembers m⟩
      | none => none
    | _ => none
  else none

/-- Modelled from the spec: the fixed-layout native account record projected
by the Account Record Access Facade (§3 AccountRecordView, §4.3): user name,
numeric uid/gid, home directory, shell, password hash. -/
structure AccountRecordNative where
  userName : List Char
  uid : Nat
  accountGid : Nat
  homeDirectory : List Char
  shell : List Char
  passwordHash : List Char
deriving DecidableEq, Repr

/-- Modelled from the spec: the facade's error — an accessor was invoked
against a null/absent native record handle (§7 NotFound). -/
inductive AccessError where
  | NotFound : AccessError
deriving DecidableEq, Repr

/-- Modelled from the spec: a field accessor of the Account Record Access
Facade (§4.3): fails with `NotFound` exactly when the handle is null/absent,
and otherwise returns the projected field value copied out of the native
record as an owned value. -/
def accessField {α : Type} (proj : AccountRecordNative → α)
    (h : Option AccountRecordNative) : Except AccessError α :=
  match h with
  | none => Except.error AccessError.NotFound
  | some r => Except.ok (proj r)

/-- Name accessor of the facade. -/
def accessUserName : Option AccountRecordNative → Except AccessError (List Char) :=
  accessField (fun r => r.userName)

/-- Uid accessor of the facade. -/
def accessUid : Option AccountRecordNative → Except AccessError Nat :=
  accessField (fun r => r.uid)

/-- Concrete example record: the `wheel` group with no members (§8). -/
def wheelRecord : GroupRecord :=
  ⟨"wheel".toList, "x".toList, 10, []⟩

/-- Concrete example record: the `dev` group with two members (§8). -/
def devRecord : GroupRecord :=
  ⟨"dev".toList, "x".toList, 500, ["alice".toList, "bob".toList]⟩

/-- Concrete record with zero members. -/
def zeroMembersRecord : GroupRecord :=
  ⟨"g".toList, "x".toList, 1, []⟩

/-- Concrete record with exactly one member whose name is empty; every field
satisfies the delimiter rules of §3. -/
def emptyMemberRecord : GroupRecord :=
  ⟨"g".toList, "x".toList, 1, [[]]⟩

/-- Concrete record whose name contains the field delimiter. -/
def badNameRecord : GroupRecord :=
  ⟨"a:b".toList, "x".toList, 3, []⟩

/-- A sink that rejects every write request with native failure code 5. -/
def failSink : List Char → SinkOutcome := fun _ => SinkOutcome.fail 5

/-- Concrete native account record. -/
def sampleAccount : AccountRecordNative :=
  ⟨"root".toList, 0, 0, "/root".toList, "/bin/sh".toList, "x".toList⟩

theorem okText_iff (s : List Char) :
    okText s = true ↔ ∀ c ∈ s, c ≠ ':' ∧ c ≠ '\n' := by
  simp [okText, List.all_eq_true, Bool.and_eq_true, bne_iff_ne]

theorem okMember_iff (s : List Char) :
    okMember s = true ↔ ∀ c ∈ s, c ≠ ':' ∧ c ≠ ',' ∧ c ≠ '\n' := by
  simp [okMember, List.all_eq_true, Bool.and_eq_true, bne_iff_ne, and_assoc]

theorem digitChar_notDelim (d : Nat) :
    digitChar d ≠ ':' ∧ digitChar d ≠ ',' ∧ digitChar d ≠ '\n' := by
  have hlt : d % 10 < 10 := Nat.mod_lt d (by norm_num)
  simp only [digitChar]
  generalize hq : d % 10 = e
  rw [hq] at hlt
  interval_cases e <;> decide

theorem digitVal_digitChar (d : Nat) (hd : d < 10) :
    digitVal (digitChar d) = some d := by
  have h10 : d % 10 = d := Nat.mod_eq_of_lt hd
  simp only [digitChar, h10]
  interval_cases d <;> decide

theorem parseNatAux_append (xs ys : List Char) (acc : Nat) :
    parseNatAux (xs ++ ys) acc =
      match parseNatAux xs acc with
      | some a => parseNatAux ys a
      | none => none := by
  induction xs generalizing acc with
  | nil => simp [parseNatAux]
  | cons c cs ih =>
    simp only [List.cons_append, parseNatAux]
    cases digitVal c <;> simp [ih]

theorem toDecimalAux_parse (fuel : Nat) :
    ∀ n, n < fuel → ∀ acc,
      parseNatAux (toDecimalAux fuel n) acc =
        some (acc * 10 ^ (toDecimalAux fuel n).length + n) := by
  induction fuel with
  | zero => intro n h; exact absurd h (Nat.not_lt_zero n)
  | succ fuel ih =>
    intro n h acc
    by_cases h10 : n < 10
    · simp [toDecimalAux, if_pos h10, parseNatAux, digitVal_digitChar n h10]
    · have hrec : n / 10 < fuel := by omega
      have hm : n % 10 < 10 := Nat.mod_lt n (by norm_num)
      simp only [toDecimalAux, if_neg h10]
      rw [parseNatAux_append, ih (n / 10) hrec acc]
      simp only [parseNatAux, digitVal_digitChar (n % 10) hm,
        List.length_append, List.length_singleton]
      congr 1
      have harith : ∀ A : Nat, (A + n / 10) * 10 + n % 10 = A * 10 + n := by
        intro A; omega
      rw [harith (acc * 10 ^ (toDecimalAux fuel (n / 10)).length), pow_succ,
        ← mul_assoc]

theorem toDecimalAux_ne_nil (fuel n : Nat) (h : 0 < fuel) :
    toDecimalAux fuel n ≠ [] := by
  cases fuel with
  | zero => exact absurd h (by omega)
  | succ fuel =>
    simp only [toDecimalAux]
    split
    · simp
    · simp

theorem parseNat_toDecimal (n : Nat) : parseNat (toDecimal n) = some n := by
  have hne : toDecimalAux (n + 1) n ≠ [] := toDecimalAux_ne_nil (n + 1) n (by omega)
  simp only [parseNat, toDecimal]
  rw [if_neg (by simpa [List.isEmpty_iff] using hne)]
  rw [toDecimalAux_parse (n + 1) n (by omega) 0]
  simp

theorem toDecimal_chars (n : Nat) (c : Char) (hc : c ∈ toDecimal n) :
    c ≠ ':' ∧ c ≠ ',' ∧ c ≠ '\n' := by
  suffices h : ∀ fuel m, c ∈ toDecimalAux fuel m → ∃ d, c = digitChar d by
    obtain ⟨d, rfl⟩ := h (n + 1) n hc
    exact digitChar_notDelim d
  intro fuel
  induction fuel with
  | zero => simp [toDecimalAux]
  | succ fuel ih =>
    intro m hm
    by_cases h10 : m < 10
    · simp only [toDecimalAux, if_pos h10, List.mem_singleton] at hm
      exact ⟨m, hm⟩
    · simp only [toDecimalAux, if_neg h10, List.mem_append,
        List.mem_singleton] at hm
      rcases hm with hm | hm
      · exact ih (m / 10) hm
      · exact ⟨m % 10, hm⟩

theorem splitOnChar_ne_nil (sep : Char) (cs : List Char) :
    splitOnChar sep cs ≠ [] := by
  induction cs with
  | nil => simp [splitOnChar]
  | cons c cs ih =>
    simp only [splitOnChar]
    split
    · simp
    · split
      · simp
      · simp

theorem splitOnChar_sepFree (sep : Char) (p : List Char)
    (h : ∀ c ∈ p, c ≠ sep) : splitOnChar sep p = [p] := by
  induction p with
  | nil => rfl
  | cons c cs ih =>
    have hc : c ≠ sep := h c (by simp)
    have hcs : splitOnChar sep cs = [cs] := ih (fun x hx => h x (by simp [hx]))
    simp only [splitOnChar, if_neg hc, hcs]

theorem splitOnChar_append (sep : Char) (p : List Char)
    (h : ∀ c ∈ p, c ≠ sep) (cs : List Char) :
    splitOnChar sep (p ++ sep :: cs) = p :: splitOnChar sep cs := by
  induction p with
  | nil => simp [splitOnChar]
  | cons a q ih =>
    have ha : a ≠ sep := h a (by simp)
    have hrec := ih (fun x hx => h x (by simp [hx]))
    simp only [List.cons_append, splitOnChar, List.append_eq, if_neg ha, hrec]

theorem intercalateChar_ne_nil (sep : Char) (ps : List (List Char))
    (h1 : ps ≠ []) (h2 : ps ≠ [[]]) : intercalateChar sep ps ≠ [] := by
  cases ps with
  | nil => exact absurd rfl h1
  | cons x qs =>
    cases qs with
    | nil =>
      intro he
      simp only [intercalateChar] at he
      exact h2 (by simp [he])
    | cons y qs2 => simp [intercalateChar]

theorem mem_intercalateChar (sep : Char) (ps : List (List Char)) (c : Char)
    (hc : c ∈ intercalateChar sep ps) : c = sep ∨ ∃ p ∈ ps, c ∈ p := by
  induction ps with
  | nil => simp [intercalateChar] at hc
  | cons x qs ih =>
    cases qs with
    | nil =>
      simp only [intercalateChar] at hc
      exact Or.inr ⟨x, by simp, hc⟩
    | cons y qs2 =>
      simp only [intercalateChar, List.mem_append, List.mem_cons] at hc
      rcases hc with hc | hc | hc
      · exact Or.inr ⟨x, by simp, hc⟩
      · exact Or.inl hc
      · rcases ih hc with h | ⟨p, hp, hcp⟩
        · exact Or.inl h
        · exact Or.inr ⟨p, by simp [List.mem_cons] at hp ⊢; tauto, hcp⟩

theorem splitOnChar_intercalate (sep : Char) (ps : List (List Char))
    (h1 : ps ≠ []) (h2 : ∀ p ∈ ps, ∀ c ∈ p, c ≠ sep) :
    splitOnChar sep (intercalateChar sep ps) = ps := by
  induction ps with
  | nil => exact absurd rfl h1
  | cons x qs ih =>
    cases qs with
    | nil =>
      simp only [intercalateChar]
      exact splitOnChar_sepFree sep x (h2 x (by simp))
    | cons y qs2 =>
      simp only [intercalateChar]
      rw [splitOnChar_append sep x (h2 x (by simp)), ih (by simp)
        (fun p hp => h2 p (by simp [List.mem_cons] at hp ⊢; tauto))]

theorem parseGroupLine_canonicalLine (r : GroupRecord)
    (hv : validRecord r = true) (hm1 : r.members ≠ [[]]) :
    parseGroupLine (canonicalLine r) = some r := by
  obtain ⟨n, p, g, ms⟩ := r
  simp only [validRecord, Bool.and_eq_true, List.all_eq_true] at hv
  obtain ⟨⟨hn, hp⟩, hms⟩ := hv
  rw [okText_iff] at hn hp
  have hnc : ∀ c ∈ n, c ≠ ':' := fun c hc => (hn c hc).1
  have hpc : ∀ c ∈ p, c ≠ ':' := fun c hc => (hp c hc).1
  have hdc : ∀ c ∈ toDecimal g, c ≠ ':' := fun c hc => (toDecimal_chars g c hc).1
  have hmemOk : ∀ m ∈ ms, ∀ c ∈ m, c ≠ ':' ∧ c ≠ ',' ∧ c ≠ '\n' := by
    intro m hm c hc
    exact (okMember_iff m).1 (hms m hm) c hc
  have hic : ∀ c ∈ intercalateChar ',' ms, c ≠ ':' := by
    intro c hc
    rcases mem_intercalateChar ',' ms c hc with rfl | ⟨q, hq, hcq⟩
    · decide
    · exact (hmemOk q hq c hcq).1
  have hpm : parseMembers (intercalateChar ',' ms) = ms := by
    cases ms with
    | nil => rfl
    | cons m ms2 =>
      have hne : intercalateChar ',' (m :: ms2) ≠ [] :=
        intercalateChar_ne_nil ',' _ (by simp) hm1
      simp only [parseMembers]
      rw [if_neg (by simpa [List.isEmpty_iff] using hne)]
      exact splitOnChar_intercalate ',' (m :: ms2) (by simp)
        (fun q hq c hc => (hmemOk q hq c hc).2.1)
  have hline : canonicalLine ⟨n, p, g, ms⟩ =
      (n ++ ':' :: (p ++ ':' :: (toDecimal g ++ ':' :: intercalateChar ',' ms)))
        ++ ['\n'] := by
    simp [canonicalLine, List.append_assoc]
  rw [hline]
  simp only [parseGroupLine, List.getLast?_concat, List.dropLast_concat,
    if_pos rfl]
  rw [splitOnChar_append ':' n hnc, splitOnChar_append ':' p hpc,
    splitOnChar_append ':' (toDecimal g) hdc,
    splitOnChar_sepFree ':' (intercalateChar ',' ms) hic]
  simp only [parseNat_toDecimal, hpm]
  simp

theorem validRecord_iff (r : GroupRecord) :
    validRecord r = true ↔
      (∀ c ∈ r.name, c ≠ ':' ∧ c ≠ '\n') ∧
      (∀ c ∈ r.passwordPlaceholder, c ≠ ':' ∧ c ≠ '\n') ∧
      (∀ m ∈ r.members, ∀ c ∈ m, c ≠ ':' ∧ c ≠ ',' ∧ c ≠ '\n') := by
  simp [validRecord, Bool.and_eq_true, List.all_eq_true, okText_iff,
    okMember_iff, and_assoc]

theorem okText_false_iff (s : List Char) :
    okText s = false ↔ ∃ c ∈ s, c = ':' ∨ c = '\n' := by
  simp [okText, List.all_eq_false, Bool.and_eq_false_iff, bne_eq_false_iff_eq]
  simp [or_iff_not_imp_left]

theorem membersAll_false_iff (ms : List (List Char)) :
    ms.all okMember = false ↔
      ∃ m ∈ ms, ∃ c ∈ m, c = ':' ∨ c = ',' ∨ c = '\n' := by
  simp [List.all_eq_false, okMember, Bool.and_eq_false_iff, bne_eq_false_iff_eq,
    or_assoc]
  simp [or_iff_not_imp_left]

theorem validRecord_false_iff (r : GroupRecord) :
    validRecord r = false ↔
      ((∃ c ∈ r.name, c = ':' ∨ c = '\n') ∨
       (∃ c ∈ r.passwordPlaceholder, c = ':' ∨ c = '\n') ∨
       (∃ m ∈ r.members, ∃ c ∈ m, c = ':' ∨ c = ',' ∨ c = '\n')) := by
  rw [← okText_false_iff r.name, ← okText_false_iff r.passwordPlaceholder,
    ← membersAll_false_iff r.members]
  simp only [validRecord, Bool.and_eq_false_iff, or_assoc]

/-- C1: for every valid GroupRecord, `encode` succeeds and hands every
accepting sink exactly the canonical line
`name:passwordPlaceholder:gid:member1,...,memberN` followed by one newline,
with the members comma-separated in their given order (so an empty member
list produces a line ending `:gid:` then newline), as one single write
request, leaving the native state untouched. -/
theorem C1_encode_emits_canonical_line (r : GroupRecord)
    (sink : List Char → SinkOutcome) (s : NativeState)
    (hv : validRecord r = true) (hsink : ∀ l, sink l = SinkOutcome.ok) :
    encode r sink s =
      { result := EncodeResult.success
        finalState := s
        writes := [r.name ++ ':' :: r.passwordPlaceholder ++ ':' ::
          toDecimal r.gid ++ ':' :: intercalateChar ',' r.members ++ ['\n']]
        nativeCalls := 1 } := by
  simp [encode, hv, hsink, canonicalLine]

/-- Witness for C1 at the two example records of the claim: encoding the
`wheel` group with no members yields exactly `"wheel:x:10:\n"`, and encoding
the `dev` group with members `alice, bob` yields exactly
`"dev:x:500:alice,bob\n"`. -/
theorem C1_encode_emits_canonical_line_witness :
    encode wheelRecord okSink ⟨0⟩ =
      { result := EncodeResult.success
        finalState := ⟨0⟩
        writes := ["wheel:x:10:\n".toList]
        nativeCalls := 1 } ∧
    encode devRecord okSink ⟨0⟩ =
      { result := EncodeResult.success
        finalState := ⟨0⟩
        writes := ["dev:x:500:alice,bob\n".toList]
        nativeCalls := 1 } :=
  ⟨(C1_encode_emits_canonical_line wheelRecord okSink ⟨0⟩ (by decide)
      (fun _ => rfl)).trans (by decide),
   (C1_encode_emits_canonical_line devRecord okSink ⟨0⟩ (by decide)
      (fun _ => rfl)).trans (by decide)⟩

/-- C2 counterexample: the record with exactly one empty member name satisfies
every validity rule listed by the claim (name non-empty without ':' or
newline, placeholder clean, gid a Nat, every member free of ':', ',' and
newline), yet its canonical line is identical to the line of the record with
zero members, so no parser whatsoever — conformant or not — can recover it
from its encoding; in particular the conformant parser of this file returns
the zero-member record instead. -/
theorem C2_roundTrip_counterexample :
    validRecord emptyMemberRecord = true ∧
    emptyMemberRecord.name ≠ [] ∧
    canonicalLine emptyMemberRecord = canonicalLine zeroMembersRecord ∧
    emptyMemberRecord ≠ zeroMembersRecord ∧
    parseGroupLine (canonicalLine emptyMemberRecord) ≠
      some emptyMemberRecord := by
  decide

/-- C2 (amended): for every GroupRecord `r` satisfying the claim's validity
rules whose member list is not the single empty member name (the one case the
counterexample forces out, since it encodes identically to the empty member
list), parsing the text `encode` hands the sink yields `r` back. -/
theorem C2_encode_parse_roundTrip (r : GroupRecord) (s : NativeState)
    (hname : r.name ≠ []) (hv : validRecord r = true)
    (hm1 : r.members ≠ [[]]) :
    ((encode r okSink s).writes).map parseGroupLine = [some r] := by
  simp [encode, hv, okSink, parseGroupLine_canonicalLine r hv hm1]

/-- Witness for C2 (amended) at the `dev` example record. -/
theorem C2_encode_parse_roundTrip_witness :
    ((encode devRecord okSink ⟨0⟩).writes).map parseGroupLine =
      [some devRecord] :=
  C2_encode_parse_roundTrip devRecord ⟨0⟩ (by decide) (by decide) (by decide)

/-- C3: `encode` fails with `InvalidField` exactly when the name or the
password placeholder contains ':' or a newline, or some member contains ':',
',' or a newline — and for no other reason, whatever the sink does. -/
theorem C3_invalidField_iff (r : GroupRecord)
    (sink : List Char → SinkOutcome) (s : NativeState) :
    (encode r sink s).result = EncodeResult.failure EncodeError.InvalidField ↔
      ((∃ c ∈ r.name, c = ':' ∨ c = '\n') ∨
       (∃ c ∈ r.passwordPlaceholder, c = ':' ∨ c = '\n') ∨
       (∃ m ∈ r.members, ∃ c ∈ m, c = ':' ∨ c = ',' ∨ c = '\n')) := by
  rw [← validRecord_false_iff]
  rcases Bool.eq_false_or_eq_true (validRecord r) with hval | hval
  · cases hs : sink (canonicalLine r) <;> simp [encode, hval, hs]
  · simp [encode, hval]

/-- C4: whatever the record, the sink and the native state, the sink observes
either no write request at all or exactly one request carrying the complete
canonical line; it is never handed a proper prefix, including on error
paths. -/
theorem C4_atomic_write (r : GroupRecord)
    (sink : List Char → SinkOutcome) (s : NativeState) :
    ((encode r sink s).writes = [] ∨
      (encode r sink s).writes = [canonicalLine r]) ∧
    ∀ w ∈ (encode r sink s).writes, w = canonicalLine r := by
  rcases Bool.eq_false_or_eq_true (validRecord r) with hval | hval
  · cases hs : sink (canonicalLine r) <;> simp [encode, hval, hs]
  · simp [encode, hval]

/-- C5: `encode` returns `WriteFailed c` exactly when the record is valid and
the sink rejects the canonical line with native code `c`; and whenever it
returns `WriteFailed c`, the wrapped code is precisely what the Error Bridge
reads from the native state `encode` leaves behind — no platform failure is
discarded without passing through the bridge. -/
theorem C5_writeFailed_iff (r : GroupRecord)
    (sink : List Char → SinkOutcome) (s : NativeState) (c : Int) :
    ((encode r sink s).result =
        EncodeResult.failure (EncodeError.WriteFailed c) ↔
      validRecord r = true ∧ sink (canonicalLine r) = SinkOutcome.fail c) ∧
    ((encode r sink s).result =
        EncodeResult.failure (EncodeError.WriteFailed c) →
      c = (getErrno (encode r sink s).finalState).1) := by
  rcases Bool.eq_false_or_eq_true (validRecord r) with hval | hval
  · cases hs : sink (canonicalLine r)
    · simp [encode, hval, hs]
    · simp [encode, hval, hs, getErrno, platformCallFail]
      intro h
      exact h.symm
  · simp [encode, hval]

/-- Witness for C5: with a sink failing with code 5, `encode` on the wheel
record returns exactly `WriteFailed 5`, and 5 is what the bridge reads from
the final native state. -/
theorem C5_writeFailed_iff_witness :
    (encode wheelRecord failSink ⟨0⟩).result =
        EncodeResult.failure (EncodeError.WriteFailed 5) ∧
      (5 : Int) = (getErrno (encode wheelRecord failSink ⟨0⟩).finalState).1 := by
  have h := C5_writeFailed_iff wheelRecord failSink ⟨0⟩ 5
  have h1 : (encode wheelRecord failSink ⟨0⟩).result =
      EncodeResult.failure (EncodeError.WriteFailed 5) :=
    h.1.mpr ⟨by decide, rfl⟩
  exact ⟨h1, h.2 h1⟩

/-- C6: capturing through the Error Bridge as the very next operation after a
failing platform call returns that call's failure code; after an intervening
unrelated native call on the same thread the captured value need no longer
reflect the original failure (witnessed by a successful call that overwrites
the thread-local value). -/
theorem C6_capture_ordering :
    (∀ (e : Int) (s : NativeState),
      (getErrno (platformCallFail e s)).1 = e) ∧
    (∃ (e newErrno : Int) (s : NativeState),
      (getErrno (platformCallOk newErrno (platformCallFail e s))).1 ≠ e) :=
  ⟨fun _ _ => rfl, ⟨1, 0, ⟨0⟩, by decide⟩⟩

/-- C7: `getErrno` returns the raw thread-local error value without
translating it, and has no side effect: the native state after the call is
exactly the state before it. -/
theorem C7_getErrno_pure (s : NativeState) :
    (getErrno s).1 = s.errno ∧ (getErrno s).2 = s :=
  ⟨rfl, rfl⟩

/-- C8: on any record violating a structural field constraint, `encode`
returns `InvalidField` having issued zero platform calls, handed the sink
nothing, and left the native state untouched — validation precedes the first
byte emitted. -/
theorem C8_validation_before_io (r : GroupRecord)
    (sink : List Char → SinkOutcome) (s : NativeState)
    (hbad : validRecord r = false) :
    encode r sink s =
      { result := EncodeResult.failure EncodeError.InvalidField
        finalState := s
        writes := []
        nativeCalls := 0 } := by
  simp [encode, hbad]

/-- Witness for C8 at a record whose name contains the field delimiter. -/
theorem C8_validation_before_io_witness :
    encode badNameRecord okSink ⟨7⟩ =
      { result := EncodeResult.failure EncodeError.InvalidField
        finalState := ⟨7⟩
        writes := []
        nativeCalls := 0 } :=
  C8_validation_before_io badNameRecord okSink ⟨7⟩ (by decide)

/-- C9: every field accessor of the Account Record Access Facade fails with
`NotFound` exactly when the native record handle is null/absent, and on a
present handle returns the projected field value copied out as an owned
value. -/
theorem C9_accessor_notFound_iff {α : Type}
    (proj : AccountRecordNative → α) (h : Option AccountRecordNative) :
    (accessField proj h = Except.error AccessError.NotFound ↔ h = none) ∧
    (∀ record : AccountRecordNative, h = some record →
      accessField proj h = Except.ok (proj record)) := by
  cases h with
  | none =>
    refine ⟨by simp [accessField], ?_⟩
    intro record hr
    cases hr
  | some r0 =>
    refine ⟨by simp [accessField], ?_⟩
    intro record hr
    injection hr with h2
    subst h2
    rfl

/-- Witness for C9: the user-name accessor on a present handle returns the
copied-out name, and on the null handle fails with `NotFound`. -/
theorem C9_accessor_notFound_iff_witness :
    accessField (fun r => r.userName) (some sampleAccount) =
      Except.ok sampleAccount.userName ∧
    accessField (fun r => r.userName) (none : Option AccountRecordNative) =
      Except.error AccessError.NotFound :=
  ⟨(C9_accessor_notFound_iff (fun r => r.userName) (some sampleAccount)).2
      sampleAccount rfl,
   (C9_accessor_notFound_iff (fun r => r.userName) none).1.mpr rfl⟩

/-- C10: the Error Bridge is a deterministic idempotent read — two
consecutive captures on the same thread with no intervening platform call
return equal values. -/
theorem C10_getErrno_idempotent (s : NativeState) :
    (getErrno (getErrno s).2).1 = (getErrno s).1 :=
  rfl

end OsKit
